import Mathlib

/-!
Verification of the moobler tmux-keybinding tutor's core text algorithms.

Shallow embedding of:
  * `scripts/overlay/keybind_parser.py` (`get_expected_key`)
  * `src/config/parser.py` (`_parse_key_with_modifiers`, `_parse_bind_line`,
    `_parse_set_option`, `_detect_user_style`, `parse_tmux_config`)
  * `src/config/models.py` (`Keybinding`, `UserStyle`, `key_combo`, `is_navigation`)
  * `src/config/merger.py` (`format_binding`, `add_keybinding`, `_binding_exists`,
    `remove_keybinding`)

Strings are modelled as `List Char` (ASCII semantics for case and whitespace
predicates, which covers every input the claims mention).  Python regular
expressions that the code builds are of a fixed restricted shape; they are
embedded as executable backtracking-complete matchers over `List Char`.
-/

namespace Moobler

/-- Character from its ASCII code (used for characters that are awkward to
write literally: quotes, braces, backslash, backtick). -/
def ch (n : Nat) : Char := Char.ofNat n

/-- Python `\s` for the ASCII range: space, tab, newline, carriage return,
vertical tab, form feed. -/
def wsChar (c : Char) : Bool :=
  c = ' ' || c = '\t' || c = '\n' || c = '\r' || c = ch 11 || c = ch 12

/-- ASCII uppercase test: models Python `str.isupper()` on a single ASCII
character. -/
def isUpperAscii (c : Char) : Bool := decide ('A' ≤ c) && decide (c ≤ 'Z')

/-- ASCII lowercasing: models Python `str.lower()` per character for ASCII
input (non-letters map to themselves). -/
def lowerChar (c : Char) : Char :=
  if isUpperAscii c then Char.ofNat (c.toNat + 32) else c

/-- Modifier vocabulary of the overlay codec (`get_expected_key` returns a
Python `set` over these three strings). -/
inductive OverlayMod where
  | alt
  | ctrl
  | shift
deriving DecidableEq

open OverlayMod

/-- The `key_map` dict of `get_expected_key`: tmux special key names to
pynput key names. -/
def overlayKeyMap : List (List Char × List Char) :=
  [ ("Space".toList, "space".toList)
  , ("Enter".toList, "enter".toList)
  , ("Tab".toList, "tab".toList)
  , ("BSpace".toList, "backspace".toList)
  , ("Escape".toList, "escape".toList)
  , ("Up".toList, "up".toList)
  , ("Down".toList, "down".toList)
  , ("Left".toList, "left".toList)
  , ("Right".toList, "right".toList) ]

/-- The `shifted_symbols` dict of `get_expected_key`: shifted symbol,
its unshifted base key, and the (always-true) needs-shift flag.  Symbols
that are not plain to write in source are built with `ch`:
123 `LEFT BRACE`, 125 `RIGHT BRACE`, 92 backslash, 96 backtick,
34 double quote, 39 single quote. -/
def shiftedSymbols : List (Char × Char × Bool) :=
  [ (ch 123, '[', true)
  , (ch 125, ']', true)
  , ('<', ',', true)
  , ('>', '.', true)
  , ('|', ch 92, true)
  , ('!', '1', true)
  , ('@', '2', true)
  , ('#', '3', true)
  , ('$', '4', true)
  , ('%', '5', true)
  , ('^', '6', true)
  , ('&', '7', true)
  , ('*', '8', true)
  , ('(', '9', true)
  , (')', '0', true)
  , ('_', '-', true)
  , ('+', '=', true)
  , ('~', ch 96, true)
  , (':', ';', true)
  , (ch 34, ch 39, true)
  , ('?', '/', true) ]

/-- Python `str.strip()`: drop whitespace from both ends. -/
def pyStrip (cs : List Char) : List Char :=
  ((cs.dropWhile wsChar).reverse.dropWhile wsChar).reverse

/-- Boolean list-prefix test (`str.startswith`). -/
def startsWithL : List Char → List Char → Bool
  | [], _ => true
  | _ :: _, [] => false
  | a :: as, b :: bs => decide (a = b) && startsWithL as bs

/-- Association-list lookup used for the fixed dict tables. -/
def tableLookup (k : List Char) : List (List Char × List Char) → Option (List Char)
  | [] => none
  | (k', v) :: rest => if k = k' then some v else tableLookup k rest

/-- Lookup in `shifted_symbols` (the input at that point is a single
character; the dict's keys are all single characters). -/
def shiftedLookup (c : Char) : List (Char × Char × Bool) → Option (Char × Bool)
  | [] => none
  | (s, b, f) :: rest => if c = s then some (b, f) else shiftedLookup c rest

/-- Model of `get_expected_key` (scripts/overlay/keybind_parser.py).
Strips one `M-`/`C-`/`S-` prefix (elif chain), maps special key names,
adds shift for a single uppercase letter, consults the shifted-symbol
table (returning the symbol itself, per the source's final
`return (modifiers, result.lower())`), otherwise lowercases verbatim. -/
def getExpectedKey (keybind : List Char) : Finset OverlayMod × List Char :=
  let r0 := pyStrip keybind
  let p :=
    if startsWithL ('M' :: '-' :: []) r0 then (({alt} : Finset OverlayMod), r0.drop 2)
    else if startsWithL ('C' :: '-' :: []) r0 then (({ctrl} : Finset OverlayMod), r0.drop 2)
    else if startsWithL ('S' :: '-' :: []) r0 then (({shift} : Finset OverlayMod), r0.drop 2)
    else ((∅ : Finset OverlayMod), r0)
  let mods := p.1
  let r := p.2
  match tableLookup r overlayKeyMap with
  | some k => (mods, k)
  | none =>
    if r.length = 1 && isUpperAscii (r.headD ' ') then
      (insert shift mods, r.map lowerChar)
    else
      match r with
      | [c] =>
        match shiftedLookup c shiftedSymbols with
        | some (_, needsShift) =>
          ((if needsShift then insert shift mods else mods), r.map lowerChar)
        | none => (mods, r.map lowerChar)
      | _ => (mods, r.map lowerChar)

/-- The 26 uppercase ASCII letters, the domain of claim C4. -/
def upperLetters : List Char := "ABCDEFGHIJKLMNOPQRSTUVWXYZ".toList

/-! ## Config data model (src/config/models.py) -/

/-- `KeyModifier` enum.  The Python `NONE` member (value `""`) is called
`nomod` here. -/
inductive KeyModifier where
  | ctrl
  | meta
  | shift
  | nomod
deriving DecidableEq

/-- `BindingMode` enum; `PREFIX` is called `pfx` here. -/
inductive BindingMode where
  | pfx
  | root
  | copyMode
  | copyModeVi
deriving DecidableEq

/-- The `.value` string of a `BindingMode` (used inside the merger's
regexes for the copy modes). -/
def bindingModeValue : BindingMode → List Char
  | .pfx => "prefix".toList
  | .root => "root".toList
  | .copyMode => "copy-mode".toList
  | .copyModeVi => "copy-mode-vi".toList

/-- One parsed tmux keybinding (`Keybinding` pydantic model). -/
structure Keybinding where
  key : List Char
  modifiers : List KeyModifier
  command : List Char
  mode : BindingMode
  description : Option (List Char)
  rawLine : List Char
deriving DecidableEq

/-- The `.value` string of a modifier (`C`, `M`, `S`, empty for NONE). -/
def modValue : KeyModifier → List Char
  | .ctrl => ['C']
  | .meta => ['M']
  | .shift => ['S']
  | .nomod => []

/-- Python `"-".join(...)` over a list of strings. -/
def joinDash : List (List Char) → List Char
  | [] => []
  | [x] => x
  | x :: y :: rest => x ++ '-' :: joinDash (y :: rest)

/-- The `key_combo` property: `key` when the modifier list is empty or
`[NONE]`, otherwise the dash-joined non-NONE modifier values, a dash, and
the key. -/
def keyCombo (kb : Keybinding) : List Char :=
  if kb.modifiers = [] ∨ kb.modifiers = [KeyModifier.nomod] then kb.key
  else joinDash ((kb.modifiers.filter (fun m => m != KeyModifier.nomod)).map modValue)
    ++ '-' :: kb.key

/-- The `nav_commands` table of the `is_navigation` property. -/
def navCommands : List (List Char) :=
  [ "select-pane".toList
  , "select-window".toList
  , "next-window".toList
  , "previous-window".toList
  , "last-window".toList
  , "switch-client".toList ]

/-- Python `pat in s` substring test over char lists. -/
def infixOfL (pat : List Char) : List Char → Bool
  | [] => startsWithL pat []
  | c :: cs => startsWithL pat (c :: cs) || infixOfL pat cs

/-- The `is_navigation` property: some navigation command occurs as a
substring of the bound command. -/
def isNavigation (kb : Keybinding) : Bool :=
  navCommands.any (fun cmd => infixOfL cmd kb.command)

/-! ## Config line parser (src/config/parser.py) -/

/-- Head-is-whitespace test (`re` patterns of shape `X\s+...` demand a
whitespace character right after `X`). -/
def headIsWs : List Char → Bool
  | [] => false
  | c :: _ => wsChar c

/-- Quote characters recognized for quoted keys (double 34, single 39). -/
def isQuoteChar (c : Char) : Bool := c = ch 34 || c = ch 39

/-- The modifier letter map of `_parse_key_with_modifiers` (`C`/`M`/`S`). -/
def cmsMod (c : Char) : Option KeyModifier :=
  if c = 'C' then some .ctrl
  else if c = 'M' then some .meta
  else if c = 'S' then some .shift
  else none

/-- The `while re.match(r"^([CMS])-(.+)$", key)` loop of
`_parse_key_with_modifiers`: repeatedly strip a leading `C-`/`M-`/`S-`
(the `(.+)` demands a nonempty remainder), collecting modifiers in strip
order. -/
def pkStrip : List Char → List Char × List KeyModifier
  | c :: '-' :: d :: rest =>
    match cmsMod c with
    | some m =>
      let p := pkStrip (d :: rest)
      (p.1, m :: p.2)
    | none => (c :: '-' :: d :: rest, [])
  | other => (other, [])

/-- `_parse_key_with_modifiers`: the stripped key and the modifier list,
normalized to `[NONE]` when no modifier was stripped. -/
def parseKeyWithModifiers (k : List Char) : List Char × List KeyModifier :=
  let p := pkStrip k
  (p.1, if p.2 = [] then [KeyModifier.nomod] else p.2)

/-- Literal token `bind`. -/
def bindTok : List Char := ['b', 'i', 'n', 'd']

/-- Literal token `bind-key`. -/
def bindKeyTok : List Char := ['b', 'i', 'n', 'd', '-', 'k', 'e', 'y']

/-- Literal token `-n`. -/
def dashNTok : List Char := ['-', 'n']

/-- Literal token `-T`. -/
def dashTTok : List Char := ['-', 'T']

/-- Literal token `root`. -/
def rootTok : List Char := ['r', 'o', 'o', 't']

/-- Literal token `copy-mode`. -/
def copyModeTok : List Char := ['c', 'o', 'p', 'y', '-', 'm', 'o', 'd', 'e']

/-- Literal token `copy-mode-vi`. -/
def copyModeViTok : List Char := ['c', 'o', 'p', 'y', '-', 'm', 'o', 'd', 'e', '-', 'v', 'i']

/-- Model of `re.match(r"^(?:bind-key|bind)\s+(.+)$", line)`: the
alternation prefers `bind-key`, backtracking to `bind`; `\s+` is greedy,
so the captured `args` start with a non-whitespace character (the model
assumes newline-free lines, which is what `splitlines` feeds in). -/
def bindArgs (l : List Char) : Option (List Char) :=
  if startsWithL bindKeyTok l then
    let r := l.drop 8
    if headIsWs r && !(r.dropWhile wsChar).isEmpty then some (r.dropWhile wsChar) else none
  else if startsWithL bindTok l then
    let r := l.drop 4
    if headIsWs r && !(r.dropWhile wsChar).isEmpty then some (r.dropWhile wsChar) else none
  else none

/-- The `-n` flag step of `_parse_bind_line`: `re.match(r"^-n\s+", ...)`
check plus the corresponding `re.sub`. -/
def consumeDashN (args : List Char) : BindingMode × List Char :=
  if startsWithL dashNTok args && headIsWs (args.drop 2) then
    (BindingMode.root, (args.drop 2).dropWhile wsChar)
  else (BindingMode.pfx, args)

/-- The mode-name dispatch of the `-T` flag: only `copy-mode`,
`copy-mode-vi` and `root` change the mode; an unrecognized name leaves
it alone. -/
def modeFromName (name : List Char) (m : BindingMode) : BindingMode :=
  if name = copyModeTok then BindingMode.copyMode
  else if name = copyModeViTok then BindingMode.copyModeVi
  else if name = rootTok then BindingMode.root
  else m

/-- The `(\S+)\s+` part of the `-T` pattern, applied to the text `r2`
after `-T\s+`; `r` is returned untouched when the pattern fails. -/
def dashTName (m : BindingMode) (r r2 : List Char) : BindingMode × List Char :=
  if !(r2.takeWhile (fun c => !wsChar c)).isEmpty
      && headIsWs (r2.dropWhile (fun c => !wsChar c)) then
    (modeFromName (r2.takeWhile (fun c => !wsChar c)) m,
      (r2.dropWhile (fun c => !wsChar c)).dropWhile wsChar)
  else (m, r)

/-- The `-T mode` flag step of `_parse_bind_line`:
`re.match(r"^-T\s+(\S+)\s+", ...)` plus the corresponding `re.sub`. -/
def consumeDashT (m : BindingMode) (r : List Char) : BindingMode × List Char :=
  if startsWithL dashTTok r && headIsWs (r.drop 2) then
    dashTName m r ((r.drop 2).dropWhile wsChar)
  else (m, r)

/-- Python `remaining.split(None, 1)`: leading whitespace dropped, first
token, and the remainder with the separating whitespace run dropped
(`none` when there is no second part). -/
def split1 (cs : List Char) : List Char × Option (List Char) :=
  ((cs.dropWhile wsChar).takeWhile (fun c => !wsChar c),
    if (((cs.dropWhile wsChar).dropWhile (fun c => !wsChar c)).dropWhile wsChar).isEmpty
    then none
    else some (((cs.dropWhile wsChar).dropWhile (fun c => !wsChar c)).dropWhile wsChar))

/-- The key-and-command step of `_parse_bind_line` (everything after the
flags): quoted key with a matching closing quote, or the two-way
whitespace split, then `_parse_key_with_modifiers`; `l` is the stripped
line recorded as `raw_line`. -/
def parseKeyCommand (mode : BindingMode) (remaining l : List Char) : Option Keybinding :=
  match remaining with
  | [] => none
  | q :: rest =>
    if isQuoteChar q then
      if rest.any (fun c => c == q) then
        let keyStr := rest.takeWhile (fun c => c != q)
        let command := pyStrip ((rest.dropWhile (fun c => c != q)).drop 1)
        let kp := parseKeyWithModifiers keyStr
        some ⟨kp.1, kp.2, command, mode, none, l⟩
      else none
    else
      let t := split1 remaining
      match t.2 with
      | none => none
      | some command =>
        let kp := parseKeyWithModifiers t.1
        some ⟨kp.1, kp.2, command, mode, none, l⟩

/-- Model of `_parse_bind_line`.  Total: malformed lines yield `none`,
mirroring the Python `return None` paths (the function never raises). -/
def parseBindLine (line : List Char) : Option Keybinding :=
  match pyStrip line with
  | [] => none
  | c0 :: rest =>
    if c0 = '#' then none
    else
      match bindArgs (c0 :: rest) with
      | none => none
      | some args =>
        let p1 := consumeDashN args
        let p2 := consumeDashT p1.1 p1.2
        parseKeyCommand p2.1 p2.2 (c0 :: rest)

/-- The option-line keyword alternation
`set-option|set|setw|set-window-option`, each demanding a following
whitespace character; returns the text after the keyword's `\s+`.  The
four keywords are mutually exclusive on any fixed line once the
following-whitespace requirement is taken into account, so first-match
equals the regex's backtracking semantics. -/
def matchSetKeyword (l : List Char) : List (List Char) → Option (List Char)
  | [] => none
  | kw :: rest =>
    if startsWithL kw l && headIsWs (l.drop kw.length) then
      some ((l.drop kw.length).dropWhile wsChar)
    else matchSetKeyword l rest

/-- The keyword list of `_parse_set_option`, in alternation order. -/
def setKeywords : List (List Char) :=
  [ "set-option".toList, "set".toList, "setw".toList, "set-window-option".toList ]

/-- The `(\S+)\s+(.+)$` tail of the option regex: name token, a
whitespace run, then the (nonempty) value.  Because `_parse_set_option`
strips the line first, the remainder after the name is never pure
whitespace, so the greedy split below is exactly the regex's behavior. -/
def nameValue (r : List Char) : Option (List Char × List Char) :=
  let name := r.takeWhile (fun c => !wsChar c)
  let r2 := r.dropWhile (fun c => !wsChar c)
  let v := r2.dropWhile wsChar
  if !name.isEmpty && headIsWs r2 && !v.isEmpty then some (name, v) else none

/-- Python `value.strip("'\"")`: remove every leading and trailing quote
character (both kinds, any number of layers). -/
def stripQuotes (v : List Char) : List Char :=
  ((v.dropWhile isQuoteChar).reverse.dropWhile isQuoteChar).reverse

/-- Model of `_parse_set_option`.  The optional `-g` group backtracks: if
the rest fails to match after consuming `-g`, the regex retries with
`-g` itself as the option name. -/
def parseSetOption (line : List Char) : Option (List Char × List Char) :=
  let l := pyStrip line
  match l with
  | [] => none
  | c0 :: _ =>
    if c0 = '#' then none
    else
      match matchSetKeyword l setKeywords with
      | none => none
      | some r1 =>
        let nv :=
          if startsWithL "-g".toList r1 && headIsWs (r1.drop 2) then
            match nameValue ((r1.drop 2).dropWhile wsChar) with
            | some p => some p
            | none => nameValue r1
          else nameValue r1
        match nv with
        | some (n, v) => some (n, stripQuotes v)
        | none => none

/-! ## Style analyzer (src/config/parser.py, `_detect_user_style`) -/

/-- Inferred user style (`UserStyle` pydantic model); `prefix_key` is
called `pfxKey` and `navigation_pattern` is `navigationPat`. -/
structure UserStyle where
  pfxKey : List Char
  usesVimKeys : Bool
  usesArrowKeys : Bool
  prefersMeta : Bool
  prefersCtrl : Bool
  navigationPat : Option (List Char)
deriving DecidableEq

/-- The vim navigation key set `{"h","j","k","l"}`. -/
def vimKeys : List (List Char) := [['h'], ['j'], ['k'], ['l']]

/-- The arrow key set `{"Left","Right","Up","Down"}`. -/
def arrowKeys : List (List Char) :=
  ["Left".toList, "Right".toList, "Up".toList, "Down".toList]

/-- The `"M-hjkl"` pattern string. -/
def mHjklPat : List Char := "M-hjkl".toList

/-- The `"hjkl (root)"` pattern string. -/
def hjklRootPat : List Char := "hjkl (root)".toList

/-- `nav_bindings` local: bindings whose command is navigation-related. -/
def navBindings (kbs : List Keybinding) : List Keybinding := kbs.filter isNavigation

/-- `meta_count`: bindings whose modifier list contains META. -/
def metaCount (kbs : List Keybinding) : Nat :=
  (kbs.filter (fun kb => kb.modifiers.contains KeyModifier.meta)).length

/-- `ctrl_count`: bindings whose modifier list contains CTRL. -/
def ctrlCount (kbs : List Keybinding) : Nat :=
  (kbs.filter (fun kb => kb.modifiers.contains KeyModifier.ctrl)).length

/-- `root_count`: bindings in Root mode. -/
def rootCount (kbs : List Keybinding) : Nat :=
  (kbs.filter (fun kb => kb.mode == BindingMode.root)).length

/-- `meta_vim` local: navigation bindings on a vim key with META. -/
def metaVim (kbs : List Keybinding) : List Keybinding :=
  (navBindings kbs).filter
    (fun kb => vimKeys.contains kb.key && kb.modifiers.contains KeyModifier.meta)

/-- `root_vim` local: navigation bindings on a vim key in Root mode. -/
def rootVim (kbs : List Keybinding) : List Keybinding :=
  (navBindings kbs).filter
    (fun kb => vimKeys.contains kb.key && kb.mode == BindingMode.root)

/-- `uses_vim_keys`: the navigation key set meets `{h,j,k,l}`. -/
def usesVimOf (kbs : List Keybinding) : Bool :=
  ((navBindings kbs).map (fun kb => kb.key)).any (fun k => vimKeys.contains k)

/-- Model of `_detect_user_style`.  The Python `len(root_vim) >= 3 and
not style.navigation_pattern` guard is the else-branch of the meta
check, written as such here.  `prefers_ctrl` is never assigned in the
source, so it keeps its model default `False`. -/
def detectUserStyle (kbs : List Keybinding)
    (options : List Char → Option (List Char)) : UserStyle :=
  let usesArrow := ((navBindings kbs).map (fun kb => kb.key)).any
    (fun k => arrowKeys.contains k)
  let pm := decide (ctrlCount kbs < metaCount kbs)
    || decide (kbs.length / 3 < rootCount kbs)
  let navPat : Option (List Char) :=
    if usesVimOf kbs then
      if 3 ≤ (metaVim kbs).length then some mHjklPat
      else if 3 ≤ (rootVim kbs).length then some hjklRootPat
      else none
    else none
  { pfxKey := (options ("prefix".toList)).getD ("C-b".toList)
  , usesVimKeys := usesVimOf kbs
  , usesArrowKeys := usesArrow
  , prefersMeta := pm
  , prefersCtrl := false
  , navigationPat := navPat }

/-- One iteration of the `parse_tmux_config` loop, option part: a line
contributes an option only when it does not parse as a binding (the loop
`continue`s after a successful binding parse). -/
def lineOption (l : List Char) : Option (List Char × List Char) :=
  if (parseBindLine l).isSome then none else parseSetOption l

/-- Model of the per-line loop of `parse_tmux_config`: options overwrite
sequentially (the returned map is a function, so the last write wins by
construction, mirroring `options[opt[0]] = opt[1]`). -/
def configOptionsFold (lines : List (List Char)) : List Char → Option (List Char) :=
  lines.foldl
    (fun acc l =>
      match lineOption l with
      | some (n, v) => fun q => if q = n then some v else acc q
      | none => acc)
    (fun _ => none)

/-- The parse result (`TmuxConfig` model, minus the file path). -/
structure TmuxConfigModel where
  keybindings : List Keybinding
  rawOptions : List Char → Option (List Char)
  style : UserStyle

/-- Model of `parse_tmux_config` on the content's line list: bindings in
source order, options with last-write-wins, style from both. -/
def parseTmuxConfigLines (lines : List (List Char)) : TmuxConfigModel :=
  let kbs := lines.filterMap parseBindLine
  let opts := configOptionsFold lines
  { keybindings := kbs, rawOptions := opts, style := detectUserStyle kbs opts }

/-! ## Merger regexes (src/config/merger.py)

The merger builds regexes of a fixed shape from literal pieces and a
`re.escape`d key.  They are embedded as continuation-passing matchers:
`lit` consumes a literal token, `wsStar`/`wsPlus` are
backtracking-complete `\s*`/`\s+` (every split is tried, which coincides
with the regex engine's greedy-plus-backtracking semantics for Boolean
match questions). -/

/-- Literal token with continuation. -/
def lit : List Char → (List Char → Bool) → List Char → Bool
  | [], k, cs => k cs
  | _ :: _, _, [] => false
  | p :: ps, k, c :: cs => decide (c = p) && lit ps k cs

/-- `\s*` with continuation (tries every split). -/
def wsStar (k : List Char → Bool) : List Char → Bool
  | [] => k []
  | c :: cs => k (c :: cs) || (wsChar c && wsStar k cs)

/-- `\s+` with continuation. -/
def wsPlus (k : List Char → Bool) : List Char → Bool
  | [] => false
  | c :: cs => wsChar c && wsStar k cs

/-- Always-matching pattern tail: nothing follows the final `\s+` in the
duplicate-check regex, and the `.*$` tail of the removal regex always
succeeds within a line. -/
def topPat : List Char → Bool := fun _ => true

/-- Literal token `-key` (the optional group of `bind(?:-key)?`). -/
def dashKeyTok : List Char := "-key".toList

/-- `{escaped_key}\s+`: `re.escape` makes the key fully literal. -/
def keyTail (key : List Char) : List Char → Bool := lit key (wsPlus topPat)

/-- The mode-specific middle of both merger regexes: `-n\s+key\s+` for
Root, `-T\s+<mode.value>\s+key\s+` for the copy modes, `key\s+` bare for
Prefix, each preceded by the `\s+` after `bind(-key)?`. -/
def modeFlagPat (mode : BindingMode) (key : List Char) : List Char → Bool :=
  match mode with
  | .root => wsPlus (lit dashNTok (wsPlus (keyTail key)))
  | .copyMode => wsPlus (lit dashTTok (wsPlus (lit copyModeTok (wsPlus (keyTail key)))))
  | .copyModeVi => wsPlus (lit dashTTok (wsPlus (lit copyModeViTok (wsPlus (keyTail key)))))
  | .pfx => wsPlus (keyTail key)

/-- `bind(?:-key)?` followed by the mode-specific part; the optional
group is a Boolean alternation. -/
def bindCorePat (mode : BindingMode) (key : List Char) : List Char → Bool :=
  lit bindTok
    (fun r => lit dashKeyTok (modeFlagPat mode key) r || modeFlagPat mode key r)

/-- The duplicate-check pattern `^\s*bind(?:-key)?...` applied at one
position (a MULTILINE `^` anchor point). -/
def existsLinePat (mode : BindingMode) (key : List Char) : List Char → Bool :=
  wsStar (bindCorePat mode key)

/-- MULTILINE `^` anchoring: a position right after some newline. -/
def afterNewlines (p : List Char → Bool) : List Char → Bool
  | [] => false
  | c :: cs => (decide (c = '\n') && p cs) || afterNewlines p cs

/-- `re.search` of a `^`-anchored MULTILINE pattern: try the pattern at
the content start and after every newline. -/
def searchFromLineStarts (p : List Char → Bool) (cs : List Char) : Bool :=
  p cs || afterNewlines p cs

/-- Model of `_binding_exists`. -/
def bindingExists (content keybind : List Char) (mode : BindingMode) : Bool :=
  searchFromLineStarts (existsLinePat mode keybind) content

/-! ### The removal pattern of `remove_keybinding`

`re.subn(r"^.*bind(?:-key)?\s+{key}\s+.*$", "", content, re.MULTILINE)`
is embedded as a deterministic backtracking matcher that returns where a
match ends (an `Option` of the remaining suffix), mirroring the regex
engine's preference order: a match starts at a `^` anchor (a line
start), the leading `.*` is greedy within its line (longest offset
first), each `\s+` is greedy with backtracking (and, crucially, may
consume newlines, so a match can span several lines when the key ends a
line), and the final `\s+` plus `.*$` commit to the maximal whitespace
run followed by the rest of that line (`.*$` always succeeds, so no
backtracking re-enters the final run). -/

/-- Literal-prefix consumption (`re.escape`d tokens are fully literal). -/
def stripPfx : List Char → List Char → Option (List Char)
  | [], cs => some cs
  | _ :: _, [] => none
  | p :: ps, c :: cs => if c = p then stripPfx ps cs else none

/-- The final `\s+` of the removal pattern: at least one whitespace
character, then the maximal run (greedy, never backtracked because the
following `.*$` always matches). -/
def finalWs (cs : List Char) : Option (List Char) :=
  match cs with
  | [] => none
  | c :: _ => if wsChar c then some (cs.dropWhile wsChar) else none

/-- A literal token followed by a continuation. -/
def litO (tok : List Char) (k : List Char → Option (List Char)) (cs : List Char) :
    Option (List Char) :=
  match stripPfx tok cs with
  | some r => k r
  | none => none

/-- Greedy `\s+` with backtracking: try consuming `n` whitespace
characters, longest first (`n` is bounded by the maximal run). -/
def wsTry (k : List Char → Option (List Char)) (cs : List Char) : Nat → Option (List Char)
  | 0 => none
  | n + 1 =>
    match k (cs.drop (n + 1)) with
    | some r => some r
    | none => wsTry k cs n

/-- `\s+` with continuation: greedy over the maximal whitespace run. -/
def wsPlusO (k : List Char → Option (List Char)) (cs : List Char) : Option (List Char) :=
  wsTry k cs ((cs.takeWhile wsChar).length)

/-- The mode-specific middle of the removal pattern (same shape as
`modeFlagPat`, but deterministic and span-returning). -/
def modeTail (mode : BindingMode) (key : List Char) : List Char → Option (List Char) :=
  match mode with
  | .root => wsPlusO (litO dashNTok (wsPlusO (litO key finalWs)))
  | .copyMode => wsPlusO (litO dashTTok (wsPlusO (litO copyModeTok (wsPlusO (litO key finalWs)))))
  | .copyModeVi =>
    wsPlusO (litO dashTTok (wsPlusO (litO copyModeViTok (wsPlusO (litO key finalWs)))))
  | .pfx => wsPlusO (litO key finalWs)

/-- `bind(?:-key)?` then the mode part; the greedy optional group tries
`-key` first. Returns the suffix right after the final whitespace run. -/
def coreEndO (mode : BindingMode) (key : List Char) (cs : List Char) : Option (List Char) :=
  litO bindTok
    (fun r =>
      match litO dashKeyTok (modeTail mode key) r with
      | some e => some e
      | none => modeTail mode key r)
    cs

/-- The leading greedy `.*` of the removal pattern: try the core at
every offset inside the current line, longest offset first. -/
def tryOffsetsDown (core : List Char → Option (List Char)) (cs : List Char) :
    Nat → Option (List Char)
  | 0 => core cs
  | n + 1 =>
    match core (cs.drop (n + 1)) with
    | some r => some r
    | none => tryOffsetsDown core cs n

/-- `.*CORE` at a line start (`.` cannot cross the newline, the core
itself can through its `\s+`). -/
def dotStarCore (core : List Char → Option (List Char)) (cs : List Char) :
    Option (List Char) :=
  tryOffsetsDown core cs ((cs.takeWhile (fun c => !(c = '\n'))).length)

/-- A full match of the removal pattern at a line start: core plus the
trailing `.*$`, which consumes the rest of the line where the final
whitespace run ended; returns the suffix after the match (empty, or
starting at the `\n` before which `$` matched). -/
def matchLineSpan (mode : BindingMode) (key : List Char) (cs : List Char) :
    Option (List Char) :=
  match dotStarCore (coreEndO mode key) cs with
  | some r => some (r.dropWhile (fun c => !(c = '\n')))
  | none => none

/-! ## Merger text surgery (src/config/merger.py) -/

/-- Python `str.splitlines()` for `\n`-separated text: split on newlines,
with no trailing empty piece for content ending in `\n` (and `[]` for
empty content). -/
def pySplitlines (cs : List Char) : List (List Char) :=
  let ps := cs.splitOn '\n'
  match ps.getLast? with
  | some [] => ps.dropLast
  | _ => ps

/-- Python `"\n".join(lines)`. -/
def joinNl : List (List Char) → List Char
  | [] => []
  | [l] => l
  | l :: l2 :: rest => l ++ '\n' :: joinNl (l2 :: rest)

/-- The `bind` line built by `format_binding` for each mode. -/
def bindLineOf (mode : BindingMode) (keybind command : List Char) : List Char :=
  match mode with
  | .root => "bind -n ".toList ++ keybind ++ ' ' :: command
  | .copyModeVi => "bind -T copy-mode-vi ".toList ++ keybind ++ ' ' :: command
  | .copyMode => "bind -T copy-mode ".toList ++ keybind ++ ' ' :: command
  | .pfx => "bind ".toList ++ keybind ++ ' ' :: command

/-- Model of `format_binding`: optional `# description` comment line,
then the mode-shaped `bind` line, newline-joined. -/
def formatBinding (keybind command : List Char) (description : Option (List Char))
    (mode : BindingMode) : List Char :=
  match description with
  | none => bindLineOf mode keybind command
  | some d => '#' :: ' ' :: d ++ '\n' :: bindLineOf mode keybind command

/-- Model of `add_keybinding` on the file content, at the claim's default
`category=None` (so `insert_at = len(lines)`: the new binding is appended
after `splitlines`, and the lines are `"\n".join`ed back).  The returned
flag is the `(success, message)` success component; on a duplicate the
content is returned untouched, mirroring the early
`return False, "... already exists"`. -/
def addKeybinding (content keybind command : List Char)
    (description : Option (List Char)) (mode : BindingMode) : Bool × List Char :=
  if bindingExists content keybind mode then (false, content)
  else
    (true, joinNl (pySplitlines content ++ [formatBinding keybind command description mode]))

/-- The `re.sub(r"\n[3 or more]", "\n\n", ...)` cleanup: every maximal
run of three or more newlines becomes exactly two. -/
def collapseNlGo : Nat → List Char → List Char
  | n, [] => List.replicate (if 3 ≤ n then 2 else n) '\n'
  | n, c :: cs =>
    if c = '\n' then collapseNlGo (n + 1) cs
    else List.replicate (if 3 ≤ n then 2 else n) '\n' ++ c :: collapseNlGo 0 cs

/-- Entry point of the newline-run collapse. -/
def collapseNl (cs : List Char) : List Char := collapseNlGo 0 cs

/-- The `re.subn` scan, position at a line start: on a match, the span
is removed from the output and scanning resumes at the suffix
`matchLineSpan` returns (which is empty or starts at the `\n` before
which the match's `$` sat — never itself a line start, so the `\n` is
copied and the next line is scanned); otherwise the current line and its
newline are copied.  The fuel only bounds the recursion: every step
continues on a strictly shorter suffix, so the caller's
`content.length + 1` can never run out (`subnGo_fuel_irrelevant`). -/
def subnGo (mode : BindingMode) (key : List Char) : Nat → List Char → List Char × Nat
  | 0, cs => (cs, 0)
  | fuel + 1, cs =>
    match matchLineSpan mode key cs with
    | some rest =>
      match rest with
      | [] => ([], 1)
      | c :: rest2 =>
        let p := subnGo mode key fuel rest2
        (c :: p.1, p.2 + 1)
    | none =>
      match cs.dropWhile (fun c => !(c = '\n')) with
      | [] => (cs, 0)
      | c :: rest2 =>
        let p := subnGo mode key fuel rest2
        (cs.takeWhile (fun c => !(c = '\n')) ++ c :: p.1, p.2)

/-- `re.subn(removal_pattern, "", content, re.MULTILINE)`: the rewritten
content and the number of matches removed. -/
def reSubn (mode : BindingMode) (key : List Char) (content : List Char) :
    List Char × Nat :=
  subnGo mode key (content.length + 1) content

/-- Model of `remove_keybinding` on the file content: `re.subn` with the
MULTILINE removal pattern; zero matches is the `"not found"` failure,
returned here as `none` with the file untouched; otherwise the newline
runs are collapsed and the new content written back. -/
def removeKeybinding (content keybind : List Char) (mode : BindingMode) :
    Option (List Char) :=
  if (reSubn mode keybind content).2 = 0 then none
  else some (collapseNl (reSubn mode keybind content).1)

/-! ## Line forms for the round-trip claim (C9) -/

/-- The flag part of a `bind [-n] [-T mode] <key> <command>` line. -/
inductive FlagForm where
  | fNone
  | fRoot
  | fTable (t : List Char)

/-- The characters the flag contributes to the line (with its trailing
separator space). -/
def flagChars : FlagForm → List Char
  | .fNone => []
  | .fRoot => "-n ".toList
  | .fTable t => "-T ".toList ++ t ++ [' ']

/-- The `BindingMode` the parser assigns to each flag form (unrecognized
`-T` names are consumed but leave the default Prefix mode). -/
def flagMode : FlagForm → BindingMode
  | .fNone => .pfx
  | .fRoot => .root
  | .fTable t => modeFromName t .pfx

/-- The flag form `format_binding` emits for each mode. -/
def canonFlagForm : BindingMode → FlagForm
  | .pfx => .fNone
  | .root => .fRoot
  | .copyMode => .fTable copyModeTok
  | .copyModeVi => .fTable copyModeViTok

/-- A `bind <flag> <key> <command>` line assembled from its parts. -/
def mkBindLine (f : FlagForm) (k c : List Char) : List Char :=
  bindTok ++ ' ' :: (flagChars f ++ (k ++ ' ' :: c))

/-- A token is plain when it is nonempty and whitespace-free. -/
def plainToken (t : List Char) : Prop :=
  t ≠ [] ∧ ∀ x ∈ t, wsChar x = false

instance (t : List Char) : Decidable (plainToken t) := by
  unfold plainToken; infer_instance

/-- Well-formedness of a flag form: a `-T` argument is a plain token. -/
def flagWellFormed : FlagForm → Prop
  | .fTable t => plainToken t
  | _ => True

instance (f : FlagForm) : Decidable (flagWellFormed f) :=
  match f with
  | .fNone => .isTrue trivial
  | .fRoot => .isTrue trivial
  | .fTable t => (inferInstance : Decidable (plainToken t))

end Moobler

namespace Moobler

open OverlayMod

/-- C4: for every tmux notation `M-<uppercase ASCII letter>`, `get_expected_key`
returns modifiers containing both "alt" and "shift", and the lowercased letter
as the key. -/
theorem c4_upper_letter_adds_shift :
    ∀ c ∈ upperLetters,
      getExpectedKey ('M' :: '-' :: [c]) = ({alt, shift}, [lowerChar c]) := by
  decide

/-- C4 witness: `get_expected_key("M-H") = ({"alt","shift"}, "h")`. -/
theorem c4_upper_letter_adds_shift_witness :
    getExpectedKey ('M' :: '-' :: ['H']) = ({alt, shift}, [lowerChar 'H']) :=
  c4_upper_letter_adds_shift 'H' (by decide)

/-- C1 counterexample: the claim says `get_expected_key("M-{")` yields the
unshifted base key `"["` (and `get_expected_key("M-!")` yields `"1"`).  The
code instead returns the shifted symbol itself: `"{"` (resp. `"!"`), the
base-key column of the table being computed but unused
(`return (modifiers, result.lower())`). -/
theorem c1_shifted_symbol_counterexample :
    getExpectedKey ('M' :: '-' :: [ch 123]) = ({alt, shift}, [ch 123]) ∧
      ([ch 123] : List Char) ≠ ['['] ∧
      getExpectedKey ('M' :: '-' :: ['!']) = ({alt, shift}, ['!']) ∧
      (['!'] : List Char) ≠ ['1'] := by
  decide

/-- C1 amended: for every entry `(s, b, needsShift)` of the shifted-symbol
table (21 entries in the source), `get_expected_key("M-" + s)` returns
modifiers `{"alt","shift"}` together with the symbol `s` itself — shift is
added, but the key is the produced character, not the unshifted base. -/
theorem c1_shifted_symbol_amended :
    ∀ p ∈ shiftedSymbols,
      getExpectedKey ('M' :: '-' :: [p.1]) = ({alt, shift}, [p.1]) := by
  decide

/-- C1 amended witness: the `{` entry of the table. -/
theorem c1_shifted_symbol_amended_witness :
    getExpectedKey ('M' :: '-' :: [(ch 123, '[', true).1]) =
      ({alt, shift}, [(ch 123, '[', true).1]) :=
  c1_shifted_symbol_amended (ch 123, '[', true) (by decide)

/-- C3 counterexample: a binding list with one Ctrl-modified binding and no
Meta-modified binding (Ctrl strictly outnumbers Meta), yet the analyzer
leaves `prefers_ctrl` at `False` — `_detect_user_style` never assigns the
field. -/
theorem c3_prefers_ctrl_counterexample :
    (detectUserStyle
        [⟨['a'], [KeyModifier.ctrl], "next-window".toList, BindingMode.pfx, none, []⟩]
        (fun _ => none)).prefersCtrl = false ∧
      ctrlCount [⟨['a'], [KeyModifier.ctrl], "next-window".toList, BindingMode.pfx, none, []⟩] = 1 ∧
      metaCount [⟨['a'], [KeyModifier.ctrl], "next-window".toList, BindingMode.pfx, none, []⟩] = 0 := by
  decide

/-- C3 amended: `prefers_ctrl` is not computed from the modifier counts at
all; `_detect_user_style` never assigns it, so every analysis result keeps
the model default `False`, whatever the bindings. -/
theorem c3_prefers_ctrl_never_set
    (kbs : List Keybinding) (opts : List Char → Option (List Char)) :
    (detectUserStyle kbs opts).prefersCtrl = false :=
  rfl

/-- C6 counterexample: three identical `M-h` navigation bindings (one vim
direction key bound, not three of the four) still produce
`navigation_pattern = "M-hjkl"`, because the code thresholds the number of
binding entries, not the number of distinct direction keys. -/
theorem c6_navigation_pattern_counterexample :
    (detectUserStyle
        (List.replicate 3
          ⟨['h'], [KeyModifier.meta], "select-pane -L".toList, BindingMode.root, none, []⟩)
        (fun _ => none)).navigationPat = some mHjklPat ∧
      (List.replicate 3
          (⟨['h'], [KeyModifier.meta], "select-pane -L".toList, BindingMode.root, none,
            []⟩ : Keybinding)).map Keybinding.key = [['h'], ['h'], ['h']] := by
  decide

/-- C6 amended: the analyzer's thresholds count navigation binding entries
on vim keys (list entries, duplicates included), not distinct direction
keys: `navigation_pattern` is `"M-hjkl"` iff some navigation key is a vim
key and at least 3 vim-key navigation bindings carry Meta; otherwise
`"hjkl (root)"` iff at least 3 vim-key navigation bindings are in Root
mode (Meta checked first); otherwise unset.  In particular at most two
vim-key navigation bindings leave it unset. -/
theorem c6_navigation_pattern_characterization
    (kbs : List Keybinding) (opts : List Char → Option (List Char)) :
    (detectUserStyle kbs opts).navigationPat =
      (if usesVimOf kbs ∧ 3 ≤ (metaVim kbs).length then some mHjklPat
       else if usesVimOf kbs ∧ 3 ≤ (rootVim kbs).length then some hjklRootPat
       else none) := by
  by_cases hv : usesVimOf kbs = true
  · by_cases hm : 3 ≤ (metaVim kbs).length
    · simp [detectUserStyle, hv, hm]
    · by_cases hr : 3 ≤ (rootVim kbs).length
      · simp [detectUserStyle, hv, hm, hr]
      · simp [detectUserStyle, hv, hm, hr]
  · simp [detectUserStyle, hv]

/-- C7: `prefers_meta` holds iff Meta-modified bindings strictly outnumber
Ctrl-modified ones, or Root-mode bindings exceed one third of all bindings
(the source's `root_count > len(keybindings) // 3` floor-division test is
exactly the exceeds-one-third test) — either disjunct alone suffices. -/
theorem c7_prefers_meta_iff
    (kbs : List Keybinding) (opts : List Char → Option (List Char)) :
    (detectUserStyle kbs opts).prefersMeta = true ↔
      (ctrlCount kbs < metaCount kbs ∨ kbs.length < 3 * rootCount kbs) := by
  have h : kbs.length / 3 < rootCount kbs ↔ kbs.length < 3 * rootCount kbs := by
    rw [Nat.div_lt_iff_lt_mul (by norm_num : (0:Nat) < 3), Nat.mul_comm]
  simp only [detectUserStyle, Bool.or_eq_true, decide_eq_true_eq]
  rw [h]

/-- C8 counterexample: the line `bind "x"` matches the bind prefix and its
post-flag remainder `"x"` is a single space-separated token (no command),
yet the parser does not skip it — the quoted-key path produces a
`Keybinding` with an empty command. -/
theorem c8_quoted_key_counterexample :
    (split1 (ch 34 :: 'x' :: [ch 34])).2 = none ∧
      parseBindLine ("bind ".toList ++ ch 34 :: 'x' :: [ch 34]) =
        some ⟨['x'], [KeyModifier.nomod], [], BindingMode.pfx, none,
          "bind ".toList ++ ch 34 :: 'x' :: [ch 34]⟩ := by
  decide

/-- The key-and-command step produces nothing when the remainder does not
start with a quote and does not split into two tokens. -/
theorem parseKeyCommand_none (mode : BindingMode) (rem l : List Char)
    (hq : isQuoteChar (rem.headD ' ') = false)
    (ht : (split1 rem).2 = none) :
    parseKeyCommand mode rem l = none := by
  cases rem with
  | nil => rfl
  | cons q rest =>
    rw [parseKeyCommand]
    rw [if_neg (by simpa using hq)]
    simp [ht]

/-- C8 amended: the parser is total (the model returns an `Option`, never
failing), and a line matching the bind prefix whose post-flag remainder
does not start with a quote character and has fewer than two
space-separated tokens produces nothing; a quoted key with no following
command instead yields a binding with an empty command. -/
theorem c8_short_bind_line_skipped (line args : List Char)
    (h1 : bindArgs (pyStrip line) = some args)
    (hq : isQuoteChar
      ((consumeDashT (consumeDashN args).1 (consumeDashN args).2).2.headD ' ') = false)
    (ht : (split1 (consumeDashT (consumeDashN args).1 (consumeDashN args).2).2).2 = none) :
    parseBindLine line = none := by
  have hb : startsWithL bindKeyTok (pyStrip line) = true ∨
      startsWithL bindTok (pyStrip line) = true := by
    by_cases h : startsWithL bindKeyTok (pyStrip line) = true
    · exact Or.inl h
    · refine Or.inr ?_
      by_contra h2
      simp [bindArgs, h, h2] at h1
  have hhead : ∃ rest, pyStrip line = 'b' :: rest := by
    rcases hb with h | h
    · cases hl : pyStrip line with
      | nil => rw [hl] at h; simp [startsWithL, bindKeyTok] at h
      | cons c rest =>
        rw [hl] at h
        simp [startsWithL, bindKeyTok] at h
        exact ⟨rest, by rw [h.1]⟩
    · cases hl : pyStrip line with
      | nil => rw [hl] at h; simp [startsWithL, bindTok] at h
      | cons c rest =>
        rw [hl] at h
        simp [startsWithL, bindTok] at h
        exact ⟨rest, by rw [h.1]⟩
  obtain ⟨rest, hl⟩ := hhead
  rw [parseBindLine, hl]
  simp only
  rw [if_neg (by decide : ¬ ('b' = '#'))]
  rw [hl] at h1
  rw [h1]
  show parseKeyCommand (consumeDashT (consumeDashN args).1 (consumeDashN args).2).1
    (consumeDashT (consumeDashN args).1 (consumeDashN args).2).2 ('b' :: rest) = none
  exact parseKeyCommand_none _ _ _ hq ht


/-- C8 amended witness: `bind x` (unquoted key, no command) parses to
nothing. -/
theorem c8_short_bind_line_skipped_witness :
    parseBindLine ("bind x".toList) = none :=
  c8_short_bind_line_skipped ("bind x".toList) ['x'] (by decide) (by decide) (by decide)

/-- C10 counterexample: for the line `set a ''2''` the parsed value is
`2` — every layer of surrounding quotes is removed (Python
`strip("'\"")`), not just one layer, which would give `'2'`. -/
theorem c10_quote_strip_counterexample :
    parseSetOption ("set a ".toList ++ [ch 39, ch 39, '2', ch 39, ch 39]) =
        some (['a'], ['2']) ∧
      (['2'] : List Char) ≠ [ch 39, '2', ch 39] := by
  decide

/-- C10 amended: the options map binds each declared name to the value of
the last line declaring it (sequential overwrite, bind-parsed lines being
skipped first), with all surrounding quote characters stripped from the
value (`strip("'\"")`, any number of layers of either quote kind). -/
theorem c10_last_write_wins (pre post : List (List Char)) (line n v : List Char)
    (h2 : lineOption line = some (n, v))
    (h3 : ∀ l ∈ post, (lineOption l).map Prod.fst ≠ some n) :
    (parseTmuxConfigLines (pre ++ line :: post)).rawOptions n = some v := by
  have hstep : ∀ (ls : List (List Char)) (acc : List Char → Option (List Char)),
      (∀ l ∈ ls, (lineOption l).map Prod.fst ≠ some n) →
      (ls.foldl
        (fun acc l =>
          match lineOption l with
          | some (m, w) => fun q => if q = m then some w else acc q
          | none => acc) acc) n = acc n := by
    intro ls
    induction ls with
    | nil => intro acc _; rfl
    | cons l ls ih =>
      intro acc hh
      rw [List.foldl_cons]
      cases ho : lineOption l with
      | none =>
        simp only [ho]
        exact ih acc (fun x hx => hh x (List.mem_cons_of_mem l hx))
      | some p =>
        obtain ⟨m, w⟩ := p
        have hmn : m ≠ n := by
          intro hc
          exact hh l (List.mem_cons_self l ls) (by rw [ho, hc]; rfl)
        simp only [ho]
        rw [ih _ (fun x hx => hh x (List.mem_cons_of_mem l hx))]
        simp [Ne.symm hmn]
  show configOptionsFold (pre ++ line :: post) n = some v
  rw [configOptionsFold, List.foldl_append, List.foldl_cons]
  rw [h2]
  rw [hstep post _ h3]
  simp

/-- C10 amended witness: `set a 1`, `set a 2`, `set b 3` — looking up `a`
gives `2`, the later of the two `a` declarations. -/
theorem c10_last_write_wins_witness :
    (parseTmuxConfigLines
        ["set a 1".toList, "set a 2".toList, "set b 3".toList]).rawOptions
      ['a'] = some ['2'] :=
  c10_last_write_wins ["set a 1".toList] ["set b 3".toList] ("set a 2".toList)
    ['a'] ['2'] (by decide) (by decide)

/-! ### Shared lemmas about the merger matchers -/

/-- A pattern that holds at a position also holds with `\s*` in front. -/
theorem wsStar_here (p : List Char → Bool) (l : List Char) (h : p l = true) :
    wsStar p l = true := by
  cases l with
  | nil => simpa [wsStar] using h
  | cons c cs => simp [wsStar, h]

/-- Consuming a literal token after a matched copy of itself continues
with the rest. -/
theorem lit_self (t : List Char) (k : List Char → Bool) :
    ∀ rest, lit t k (t ++ rest) = k rest := by
  induction t with
  | nil => intro rest; rfl
  | cons a as ih => intro rest; simp [lit, ih]

/-- `\s+TOK...` matches one space, a literal token and its continuation. -/
theorem wsPlus_lit_space (tok : List Char) (k : List Char → Bool) (rest : List Char)
    (h : k rest = true) : wsPlus (lit tok k) (' ' :: (tok ++ rest)) = true := by
  show (wsChar ' ' && wsStar (lit tok k) (tok ++ rest)) = true
  rw [show wsChar ' ' = true from rfl, Bool.true_and]
  exact wsStar_here _ _ (by rw [lit_self]; exact h)

/-! ### Shared lemmas for the duplicate check after an append (C5) -/

/-- MULTILINE `^` anchor points survive prepending characters. -/
theorem afterNewlines_mono (p : List Char → Bool) (l₁ l₂ : List Char)
    (h : afterNewlines p l₂ = true) : afterNewlines p (l₁ ++ l₂) = true := by
  induction l₁ with
  | nil => simpa using h
  | cons c cs ih => rw [List.cons_append, afterNewlines, ih]; simp

/-- A match at a line start of `ys` is found anywhere in
`xs ++ "\n" ++ ys`. -/
theorem search_shift (p : List Char → Bool) (xs ys : List Char)
    (h : searchFromLineStarts p ys = true) :
    searchFromLineStarts p (xs ++ '\n' :: ys) = true := by
  have h2 : afterNewlines p ('\n' :: ys) = true := by
    rw [afterNewlines]
    simpa [searchFromLineStarts] using h
  rw [searchFromLineStarts, afterNewlines_mono p xs _ h2]
  simp

/-- The core pattern holds as soon as the mode part holds right after the
literal `bind`. -/
theorem bindCore_direct (mode : BindingMode) (k r : List Char)
    (h : modeFlagPat mode k r = true) : bindCorePat mode k (bindTok ++ r) = true := by
  unfold bindCorePat
  rw [lit_self]
  simp [h]

/-- The `bind` line `format_binding` emits matches the duplicate-check
core pattern built for the same key and mode. -/
theorem bindCorePat_format (mode : BindingMode) (k c : List Char) :
    bindCorePat mode k (bindLineOf mode k c) = true := by
  have hkey : ∀ rest : List Char, wsPlus (keyTail k) (' ' :: (k ++ ' ' :: rest)) = true := by
    intro rest
    exact wsPlus_lit_space k (wsPlus topPat) (' ' :: rest) (by
      show (wsChar ' ' && wsStar topPat rest) = true
      rw [show wsChar ' ' = true from rfl, Bool.true_and]
      exact wsStar_here topPat rest rfl)
  cases mode with
  | pfx =>
    have e : bindLineOf .pfx k c = bindTok ++ (' ' :: (k ++ ' ' :: c)) := rfl
    rw [e]
    exact bindCore_direct _ _ _ (hkey c)
  | root =>
    have e : bindLineOf .root k c
        = bindTok ++ (' ' :: (dashNTok ++ (' ' :: (k ++ ' ' :: c)))) := rfl
    rw [e]
    exact bindCore_direct _ _ _
      (wsPlus_lit_space dashNTok (wsPlus (keyTail k)) _ (hkey c))
  | copyMode =>
    have e : bindLineOf .copyMode k c
        = bindTok ++ (' ' :: (dashTTok ++ (' ' :: (copyModeTok ++ (' ' :: (k ++ ' ' :: c)))))) := rfl
    rw [e]
    exact bindCore_direct _ _ _
      (wsPlus_lit_space dashTTok _ _
        (wsPlus_lit_space copyModeTok (wsPlus (keyTail k)) _ (hkey c)))
  | copyModeVi =>
    have e : bindLineOf .copyModeVi k c
        = bindTok ++ (' ' :: (dashTTok ++ (' ' :: (copyModeViTok ++ (' ' :: (k ++ ' ' :: c)))))) := rfl
    rw [e]
    exact bindCore_direct _ _ _
      (wsPlus_lit_space dashTTok _ _
        (wsPlus_lit_space copyModeViTok (wsPlus (keyTail k)) _ (hkey c)))

/-- The duplicate-check pattern finds the whole `format_binding` output
(also when a description comment line precedes the bind line). -/
theorem search_format (mode : BindingMode) (keybind command : List Char)
    (desc : Option (List Char)) :
    searchFromLineStarts (existsLinePat mode keybind)
      (formatBinding keybind command desc mode) = true := by
  have hline : existsLinePat mode keybind (bindLineOf mode keybind command) = true :=
    wsStar_here _ _ (bindCorePat_format mode keybind command)
  cases desc with
  | none =>
    rw [formatBinding, searchFromLineStarts, hline]
    simp
  | some d =>
    show searchFromLineStarts _
      (('#' :: ' ' :: d) ++ '\n' :: bindLineOf mode keybind command) = true
    exact search_shift _ _ _ (by rw [searchFromLineStarts, hline]; simp)

/-- A match at a line start of the last element is found in the
newline-join of the whole list. -/
theorem search_joinNl_concat (p : List Char → Bool) (ls : List (List Char)) (x : List Char)
    (h : searchFromLineStarts p x = true) :
    searchFromLineStarts p (joinNl (ls ++ [x])) = true := by
  induction ls with
  | nil => simpa [joinNl] using h
  | cons a ls ih =>
    have hne : joinNl ((a :: ls) ++ [x]) = a ++ '\n' :: joinNl (ls ++ [x]) := by
      cases ls with
      | nil => rfl
      | cons b bs => rfl
    rw [hne]
    exact search_shift p a _ ih

/-! ### C5: adding the same key and mode twice -/

/-- C5: if `add_keybinding` succeeds for a key and mode, a second call
with the same key and mode (any command and description) fails with the
"already exists" outcome and returns the file content unchanged — the
formatted line appended by the first call always matches the
duplicate-check regex for its own key and mode. -/
theorem c5_duplicate_add_rejected (content keybind command command2 : List Char)
    (desc desc2 : Option (List Char)) (mode : BindingMode)
    (h : (addKeybinding content keybind command desc mode).1 = true) :
    addKeybinding (addKeybinding content keybind command desc mode).2
        keybind command2 desc2 mode
      = (false, (addKeybinding content keybind command desc mode).2) := by
  have hb : bindingExists content keybind mode = false := by
    cases hbe : bindingExists content keybind mode with
    | false => rfl
    | true =>
      rw [addKeybinding] at h
      rw [hbe] at h
      simp at h
  have hsnd : (addKeybinding content keybind command desc mode).2
      = joinNl (pySplitlines content ++ [formatBinding keybind command desc mode]) := by
    rw [addKeybinding, hb]
    simp
  have hex : bindingExists
      (joinNl (pySplitlines content ++ [formatBinding keybind command desc mode]))
      keybind mode = true := by
    unfold bindingExists
    exact search_joinNl_concat _ _ _ (search_format mode keybind command desc)
  rw [hsnd, addKeybinding, hex]
  simp

/-- The separator space is whitespace. -/
theorem wsChar_space : wsChar ' ' = true := rfl

/-! ### Shared lemmas for the parse/format round trip (C9) -/

/-- `dropWhile` keeps a list whose head is not whitespace. -/
theorem dropWhile_ws_cons_false (a : Char) (l : List Char) (h : wsChar a = false) :
    List.dropWhile wsChar (a :: l) = a :: l := by
  simp [List.dropWhile_cons, h]

/-- `dropWhile` keeps any list failing the head-whitespace test. -/
theorem dropWhile_headIsWs_false (l : List Char) (h : headIsWs l = false) :
    List.dropWhile wsChar l = l := by
  cases l with
  | nil => rfl
  | cons a as => exact dropWhile_ws_cons_false a as (by simpa [headIsWs] using h)

/-- `str.strip()` is the identity when first and last characters are not
whitespace. -/
theorem pyStrip_noop (a : Char) (m : List Char) (x : Char)
    (ha : wsChar a = false) (hx : wsChar x = false) :
    pyStrip (a :: (m ++ [x])) = a :: (m ++ [x]) := by
  unfold pyStrip
  rw [dropWhile_ws_cons_false a _ ha]
  have hrev : (a :: (m ++ [x])).reverse = x :: (m.reverse ++ [a]) := by
    simp
  rw [hrev, dropWhile_ws_cons_false x _ hx, ← hrev, List.reverse_reverse]

/-- `takeWhile not-whitespace` captures exactly a plain token before a
whitespace character. -/
theorem takeWhile_token (k : List Char) (hk : ∀ c ∈ k, wsChar c = false)
    (x : Char) (hx : wsChar x = true) (rest : List Char) :
    (k ++ x :: rest).takeWhile (fun c => !wsChar c) = k := by
  induction k with
  | nil => simp [List.takeWhile_cons, hx]
  | cons a as ih =>
    have ha : wsChar a = false := hk a (List.mem_cons_self a as)
    rw [List.cons_append, List.takeWhile_cons]
    simp [ha, ih (fun c hc => hk c (List.mem_cons_of_mem a hc))]

/-- `dropWhile not-whitespace` drops exactly a plain token before a
whitespace character. -/
theorem dropWhile_token (k : List Char) (hk : ∀ c ∈ k, wsChar c = false)
    (x : Char) (hx : wsChar x = true) (rest : List Char) :
    (k ++ x :: rest).dropWhile (fun c => !wsChar c) = x :: rest := by
  induction k with
  | nil => simp [List.dropWhile_cons, hx]
  | cons a as ih =>
    have ha : wsChar a = false := hk a (List.mem_cons_self a as)
    rw [List.cons_append, List.dropWhile_cons]
    simp [ha, ih (fun c hc => hk c (List.mem_cons_of_mem a hc))]

/-- A plain token followed by a single separating space splits into the
token and the (nonempty, non-whitespace-headed) remainder. -/
theorem split1_two_tokens (k c : List Char) (hk : plainToken k)
    (hch : headIsWs c = false) (hc : c ≠ []) :
    split1 (k ++ ' ' :: c) = (k, some c) := by
  obtain ⟨hne, hnws⟩ := hk
  have hhead : headIsWs (k ++ ' ' :: c) = false := by
    cases k with
    | nil => exact absurd rfl hne
    | cons a as => simpa [headIsWs] using hnws a (List.mem_cons_self a as)
  unfold split1
  rw [dropWhile_headIsWs_false _ hhead]
  rw [takeWhile_token k hnws ' ' wsChar_space c, dropWhile_token k hnws ' ' wsChar_space c]
  have e : List.dropWhile wsChar (' ' :: c) = c := by
    rw [List.dropWhile_cons, if_pos wsChar_space]
    exact dropWhile_headIsWs_false c hch
  rw [e]
  cases c with
  | nil => exact absurd rfl hc
  | cons d ds => rfl

/-- A two-character flag check always fails on a plain token other than
the flag itself followed by a space: either the token is not the flag,
or the character after the consumed flag is not whitespace. -/
theorem flag2_check_false (f0 f1 : Char) (hf1 : wsChar f1 = false) (k c : List Char)
    (hne : k ≠ []) (hnws : ∀ x ∈ k, wsChar x = false) (hkn : k ≠ [f0, f1]) :
    (startsWithL [f0, f1] (k ++ ' ' :: c) && headIsWs ((k ++ ' ' :: c).drop 2)) = false := by
  match k, hne with
  | [a], _ =>
    show (startsWithL [f0, f1] (a :: ' ' :: c) && headIsWs c) = false
    have hne1 : ¬ (f1 = ' ') := by
      intro h
      rw [h] at hf1
      simp [wsChar] at hf1
    simp [startsWithL, hne1]
  | [a, b], _ =>
    show (startsWithL [f0, f1] (a :: b :: ' ' :: c) && headIsWs (' ' :: c)) = false
    have h12 : ¬ (f0 = a ∧ f1 = b) := by
      intro h
      exact hkn (by rw [h.1, h.2])
    by_cases h1 : f0 = a
    · by_cases h2 : f1 = b
      · exact absurd ⟨h1, h2⟩ h12
      · simp [startsWithL, h2]
    · simp [startsWithL, h1]
  | a :: b :: e :: k2, _ =>
    show (startsWithL [f0, f1] (a :: b :: e :: (k2 ++ ' ' :: c))
        && headIsWs (e :: (k2 ++ ' ' :: c))) = false
    have he : wsChar e = false := hnws e (by simp)
    simp [headIsWs, he]

/-- The `-n` check does not fire on a plain key other than `-n`. -/
theorem consumeDashN_plain (k c : List Char) (hk : plainToken k) (hkn : k ≠ dashNTok) :
    consumeDashN (k ++ ' ' :: c) = (BindingMode.pfx, k ++ ' ' :: c) := by
  have hcond := flag2_check_false '-' 'n' (by decide) k c hk.1 hk.2 hkn
  simp only [consumeDashN, dashNTok] at hcond ⊢
  simp [hcond]

/-- The `-n` check consumes `-n ` and the following whitespace run. -/
theorem consumeDashN_root (rest : List Char) (h : headIsWs rest = false) :
    consumeDashN ('-' :: 'n' :: ' ' :: rest) = (BindingMode.root, rest) := by
  show (BindingMode.root, List.dropWhile wsChar rest) = (BindingMode.root, rest)
  rw [dropWhile_headIsWs_false rest h]

/-- The `-n` check does not fire on a `-T` flag. -/
theorem consumeDashN_dashT (r : List Char) :
    consumeDashN ('-' :: 'T' :: r) = (BindingMode.pfx, '-' :: 'T' :: r) :=
  rfl

/-- The `-T` check does not fire on a plain key other than `-T`. -/
theorem consumeDashT_plain (m : BindingMode) (k c : List Char)
    (hk : plainToken k) (hkT : k ≠ dashTTok) :
    consumeDashT m (k ++ ' ' :: c) = (m, k ++ ' ' :: c) := by
  have hcond := flag2_check_false '-' 'T' (by decide) k c hk.1 hk.2 hkT
  simp only [consumeDashT, dashTTok] at hcond ⊢
  simp [hcond]

/-- The `-T` check consumes `-T <name> ` with a plain name, dispatching
the mode through the recognized-name table. -/
theorem consumeDashT_table (m : BindingMode) (t rest : List Char)
    (ht : plainToken t) (hr : headIsWs rest = false) :
    consumeDashT m ('-' :: 'T' :: ' ' :: (t ++ ' ' :: rest)) =
      (modeFromName t m, rest) := by
  obtain ⟨htne, htnws⟩ := ht
  have e2 : List.dropWhile wsChar (t ++ ' ' :: rest) = t ++ ' ' :: rest := by
    apply dropWhile_headIsWs_false
    cases t with
    | nil => exact absurd rfl htne
    | cons a as => simpa [headIsWs] using htnws a (List.mem_cons_self a as)
  show dashTName m ('-' :: 'T' :: ' ' :: (t ++ ' ' :: rest))
      (List.dropWhile wsChar (t ++ ' ' :: rest)) = (modeFromName t m, rest)
  rw [e2]
  unfold dashTName
  rw [takeWhile_token t htnws ' ' wsChar_space rest, dropWhile_token t htnws ' ' wsChar_space rest]
  have hne : t.isEmpty = false := by
    cases t with
    | nil => exact absurd rfl htne
    | cons a as => rfl
  simp only [hne, Bool.not_false, Bool.true_and]
  have hw : headIsWs (' ' :: rest) = true := rfl
  simp only [hw, if_true]
  show (modeFromName t m, List.dropWhile wsChar rest) = (modeFromName t m, rest)
  rw [dropWhile_headIsWs_false rest hr]

/-- `bind ` followed by a non-whitespace character yields exactly the
text after the separating space as the regex's `args` capture. -/
theorem bindArgs_cons (r0 : Char) (rest : List Char) (hr0 : wsChar r0 = false) :
    bindArgs (bindTok ++ ' ' :: r0 :: rest) = some (r0 :: rest) := by
  show (if headIsWs (' ' :: r0 :: rest) && !(List.dropWhile wsChar (r0 :: rest)).isEmpty
      then some (List.dropWhile wsChar (r0 :: rest)) else none) = some (r0 :: rest)
  rw [dropWhile_ws_cons_false r0 rest hr0]
  rfl

/-- The modifier the strip loop produces is never NONE. -/
theorem cmsMod_ne_nomod (c : Char) (m : KeyModifier) (h : cmsMod c = some m) :
    m ≠ KeyModifier.nomod := by
  unfold cmsMod at h
  by_cases h1 : c = 'C'
  · simp [h1] at h; rw [← h]; decide
  · by_cases h2 : c = 'M'
    · simp [h1, h2] at h; rw [← h]; decide
    · by_cases h3 : c = 'S'
      · simp [h1, h2, h3] at h; rw [← h]; decide
      · simp [h1, h2, h3] at h

/-- The modifier stripped from the letter `c` prints back as `c`. -/
theorem cmsMod_val (c : Char) (m : KeyModifier) (h : cmsMod c = some m) :
    modValue m = [c] := by
  unfold cmsMod at h
  by_cases h1 : c = 'C'
  · simp [h1] at h; rw [← h, h1]; rfl
  · by_cases h2 : c = 'M'
    · simp [h1, h2] at h; rw [← h, h2]; rfl
    · by_cases h3 : c = 'S'
      · simp [h1, h2, h3] at h; rw [← h, h3]; rfl
      · simp [h1, h2, h3] at h

/-- Unfolding of the dash join on a cons with nonempty tail. -/
theorem joinDash_cons_ne (x : List Char) (l : List (List Char)) (h : l ≠ []) :
    joinDash (x :: l) = x ++ '-' :: joinDash l := by
  cases l with
  | nil => exact absurd rfl h
  | cons y ys => rfl

/-- Reconstruction invariant of the modifier-strip loop: either nothing
was stripped (key = input), or the dash-join of the stripped modifier
letters followed by the residual key is the original token, with no
NONE modifier collected. -/
theorem pk_recon : ∀ (k : List Char),
    ((pkStrip k).2 = [] ∧ (pkStrip k).1 = k) ∨
      ((pkStrip k).2 ≠ [] ∧ KeyModifier.nomod ∉ (pkStrip k).2 ∧
        joinDash (((pkStrip k).2).map modValue) ++ '-' :: (pkStrip k).1 = k) := by
  intro k
  induction k using pkStrip.induct with
  | case1 c d rest m hm ih =>
    right
    have hpk : pkStrip (c :: '-' :: d :: rest)
        = ((pkStrip (d :: rest)).1, m :: (pkStrip (d :: rest)).2) := by
      simp [pkStrip, hm]
    rw [hpk]
    refine ⟨by simp, ?_, ?_⟩
    · intro hmem
      rcases List.mem_cons.mp hmem with h | h
      · exact cmsMod_ne_nomod c m hm h.symm
      · rcases ih with ⟨h2, _⟩ | ⟨_, hnm, _⟩
        · rw [h2] at h; simp at h
        · exact hnm h
    · rcases ih with ⟨h2, h1⟩ | ⟨hne, hnm, heq⟩
      · rw [h2, h1]
        simp [joinDash, cmsMod_val c m hm]
      · show joinDash (List.map modValue (m :: (pkStrip (d :: rest)).2)) ++
            '-' :: (pkStrip (d :: rest)).1 = c :: '-' :: d :: rest
        have hmapne : (pkStrip (d :: rest)).2.map modValue ≠ [] := by
          intro hh
          exact hne (List.map_eq_nil_iff.mp hh)
        rw [List.map_cons, joinDash_cons_ne _ _ hmapne]
        rw [cmsMod_val c m hm]
        simp only [List.cons_append, List.nil_append, List.append_assoc]
        rw [heq]
  | case2 c d rest hm =>
    left
    constructor <;> simp [pkStrip, hm]
  | case3 other h =>
    left
    have hpk : pkStrip other = (other, []) := by
      rw [pkStrip.eq_def]
      split
      · rename_i c d rest
        exact (h c d rest rfl).elim
      · rfl
    rw [hpk]
    exact ⟨rfl, rfl⟩

/-- `key_combo` of a parsed key reproduces the original key token. -/
theorem keyCombo_parseKeyWithModifiers (k cmd raw : List Char) (mode : BindingMode)
    (desc : Option (List Char)) :
    keyCombo ⟨(parseKeyWithModifiers k).1, (parseKeyWithModifiers k).2, cmd, mode, desc, raw⟩
      = k := by
  show keyCombo ⟨(pkStrip k).1,
      (if (pkStrip k).2 = [] then [KeyModifier.nomod] else (pkStrip k).2),
      cmd, mode, desc, raw⟩ = k
  rcases pk_recon k with ⟨h2, h1⟩ | ⟨hne, hnm, heq⟩
  · rw [if_pos h2]
    rw [show keyCombo ⟨(pkStrip k).1, [KeyModifier.nomod], cmd, mode, desc, raw⟩
      = (pkStrip k).1 from rfl]
    exact h1
  · rw [if_neg hne]
    have hcond : ¬((pkStrip k).2 = [] ∨ (pkStrip k).2 = [KeyModifier.nomod]) := by
      rintro (h | h)
      · exact hne h
      · rw [h] at hnm
        simp at hnm
    have hfil : (pkStrip k).2.filter (fun m => m != KeyModifier.nomod) = (pkStrip k).2 :=
      List.filter_eq_self.mpr (fun a ha => by
        simp only [bne_iff_ne, ne_eq, decide_eq_true_eq]
        intro hEq
        exact hnm (hEq ▸ ha))
    show (if (pkStrip k).2 = [] ∨ (pkStrip k).2 = [KeyModifier.nomod] then (pkStrip k).1
        else joinDash (((pkStrip k).2.filter (fun m => m != KeyModifier.nomod)).map modValue)
          ++ '-' :: (pkStrip k).1) = k
    rw [if_neg hcond, hfil]
    exact heq

/-- The unquoted key-and-command step on a plain key and command. -/
theorem parseKeyCommand_plain (mode : BindingMode) (k c l : List Char)
    (hk : plainToken k) (hq : isQuoteChar (k.headD ' ') = false)
    (hch : headIsWs c = false) (hc : c ≠ []) :
    parseKeyCommand mode (k ++ ' ' :: c) l =
      some ⟨(parseKeyWithModifiers k).1, (parseKeyWithModifiers k).2, c, mode, none, l⟩ := by
  obtain ⟨hne, hnws⟩ := hk
  cases k with
  | nil => exact absurd rfl hne
  | cons a as =>
    show parseKeyCommand mode (a :: (as ++ ' ' :: c)) l = _
    have hs : split1 (a :: (as ++ ' ' :: c)) = (a :: as, some c) := by
      exact split1_two_tokens (a :: as) c ⟨List.cons_ne_nil a as, hnws⟩ hch hc
    rw [parseKeyCommand]
    rw [if_neg (by simpa using hq)]
    rw [hs]

/-- A list starting with a plain token does not start with whitespace. -/
theorem headIsWs_plain_false (k : List Char) (tail : List Char) (hk : plainToken k) :
    headIsWs (k ++ tail) = false := by
  obtain ⟨hne, hnws⟩ := hk
  cases k with
  | nil => exact absurd rfl hne
  | cons a as => simpa [headIsWs] using hnws a (List.mem_cons_self a as)

/-- Parsing a constructed `bind <flag> <key> <command>` line: the flags
are consumed as written, the key token is decomposed by the modifier
strip loop, and the command is everything after the key. -/
theorem parseBindLine_mkBindLine (f : FlagForm) (k c : List Char)
    (hk : plainToken k) (hq : isQuoteChar (k.headD ' ') = false)
    (hkn : k ≠ dashNTok) (hkT : k ≠ dashTTok) (hf : flagWellFormed f)
    (hch : headIsWs c = false) (hc : c ≠ [])
    (hcl : wsChar (c.getLastD ' ') = false) :
    parseBindLine (mkBindLine f k c) =
      some ⟨(parseKeyWithModifiers k).1, (parseKeyWithModifiers k).2, c, flagMode f,
        none, mkBindLine f k c⟩ := by
  obtain ⟨x, d, hcd⟩ : ∃ x d, c = d ++ [x] :=
    ⟨c.getLast hc, c.dropLast, (List.dropLast_append_getLast hc).symm⟩
  have hx : wsChar x = false := by
    rw [hcd, List.getLastD_concat] at hcl
    exact hcl
  have hshape : mkBindLine f k c
      = 'b' :: (('i' :: 'n' :: 'd' :: ' ' :: (flagChars f ++ (k ++ ' ' :: d))) ++ [x]) := by
    rw [hcd]
    simp [mkBindLine, bindTok, List.append_assoc]
  have hstrip : pyStrip (mkBindLine f k c) = mkBindLine f k c := by
    rw [hshape]
    exact pyStrip_noop 'b' _ x (by decide) hx
  have hka : headIsWs (k ++ ' ' :: c) = false := headIsWs_plain_false k _ hk
  cases f with
  | fNone =>
    obtain ⟨a, as, hkcons⟩ : ∃ a as, k = a :: as := by
      cases k with
      | nil => exact absurd rfl hk.1
      | cons a as => exact ⟨a, as, rfl⟩
    have ha : wsChar a = false := hk.2 a (by rw [hkcons]; exact List.mem_cons_self a as)
    have hml : mkBindLine FlagForm.fNone k c
        = 'b' :: ('i' :: 'n' :: 'd' :: ' ' :: (k ++ ' ' :: c)) := by
      rw [hkcons]; rfl
    have hargs : bindArgs ('b' :: ('i' :: 'n' :: 'd' :: ' ' :: (k ++ ' ' :: c)))
        = some (k ++ ' ' :: c) := by
      rw [hkcons]
      exact bindArgs_cons a (as ++ ' ' :: c) ha
    rw [parseBindLine.eq_def, hstrip, hml]
    simp only
    rw [if_neg (by decide : ¬ ('b' = '#'))]
    rw [hargs]
    simp only
    rw [consumeDashN_plain k c hk hkn]
    simp only
    rw [consumeDashT_plain BindingMode.pfx k c hk hkT]
    simp only
    rw [parseKeyCommand_plain BindingMode.pfx k c _ hk hq hch hc]
    rw [← hml]
    rfl
  | fRoot =>
    have hml : mkBindLine FlagForm.fRoot k c
        = 'b' :: ('i' :: 'n' :: 'd' :: ' ' :: ('-' :: 'n' :: ' ' :: (k ++ ' ' :: c))) := rfl
    have hargs : bindArgs
        ('b' :: ('i' :: 'n' :: 'd' :: ' ' :: ('-' :: 'n' :: ' ' :: (k ++ ' ' :: c))))
        = some ('-' :: 'n' :: ' ' :: (k ++ ' ' :: c)) :=
      bindArgs_cons '-' ('n' :: ' ' :: (k ++ ' ' :: c)) (by decide)
    rw [parseBindLine.eq_def, hstrip, hml]
    simp only
    rw [if_neg (by decide : ¬ ('b' = '#'))]
    rw [hargs]
    simp only
    rw [consumeDashN_root (k ++ ' ' :: c) hka]
    simp only
    rw [consumeDashT_plain BindingMode.root k c hk hkT]
    simp only
    rw [parseKeyCommand_plain BindingMode.root k c _ hk hq hch hc]
    rw [← hml]
    rfl
  | fTable t =>
    have hml : mkBindLine (FlagForm.fTable t) k c
        = 'b' :: ('i' :: 'n' :: 'd' :: ' '
            :: ('-' :: 'T' :: ' ' :: (t ++ ' ' :: (k ++ ' ' :: c)))) := by
      show bindTok ++ ' ' :: ((('-' :: 'T' :: ' ' :: t) ++ [' ']) ++ (k ++ ' ' :: c)) = _
      simp [bindTok, List.append_assoc]
    have hargs : bindArgs ('b' :: ('i' :: 'n' :: 'd' :: ' '
          :: ('-' :: 'T' :: ' ' :: (t ++ ' ' :: (k ++ ' ' :: c)))))
        = some ('-' :: 'T' :: ' ' :: (t ++ ' ' :: (k ++ ' ' :: c))) :=
      bindArgs_cons '-' ('T' :: ' ' :: (t ++ ' ' :: (k ++ ' ' :: c))) (by decide)
    rw [parseBindLine.eq_def, hstrip, hml]
    simp only
    rw [if_neg (by decide : ¬ ('b' = '#'))]
    rw [hargs]
    simp only
    rw [consumeDashN_dashT (' ' :: (t ++ ' ' :: (k ++ ' ' :: c)))]
    simp only
    rw [consumeDashT_table BindingMode.pfx t (k ++ ' ' :: c) hf hka]
    simp only
    rw [parseKeyCommand_plain (modeFromName t BindingMode.pfx) k c _ hk hq hch hc]
    rw [← hml]
    rfl

/-- The `format_binding` line is the constructed line for the canonical
flag form of its mode. -/
theorem bindLineOf_eq_mkBindLine (mode : BindingMode) (k c : List Char) :
    bindLineOf mode k c = mkBindLine (canonFlagForm mode) k c := by
  cases mode <;> rfl

/-- The parser maps the canonical flag of each mode back to that mode. -/
theorem flagMode_canon (m : BindingMode) : flagMode (canonFlagForm m) = m := by
  cases m <;> decide

/-- Canonical flags are well formed. -/
theorem canonFlagForm_wf (m : BindingMode) : flagWellFormed (canonFlagForm m) := by
  cases m <;> decide

/-- C9: for every line of the form `bind [-n] [-T mode] <key> <command>`
(plain unquoted key token that is not itself a flag, plain `-T` argument,
command with no surrounding whitespace), the line parses to a
`Keybinding`, and reformatting via `format_binding` with the parsed
binding's `key_combo`, command and mode yields a line that parses back to
an equivalent binding (same key, modifiers, command and mode) — the
round trip up to comment and whitespace differences. -/
theorem c9_parse_format_round_trip (f : FlagForm) (k c : List Char)
    (hk : plainToken k) (hq : isQuoteChar (k.headD ' ') = false)
    (hkn : k ≠ dashNTok) (hkT : k ≠ dashTTok) (hf : flagWellFormed f)
    (hch : headIsWs c = false) (hc : c ≠ [])
    (hcl : wsChar (c.getLastD ' ') = false) :
    ∃ kb : Keybinding,
      parseBindLine (mkBindLine f k c) = some kb ∧
        ∃ kb2 : Keybinding,
          parseBindLine (formatBinding (keyCombo kb) kb.command none kb.mode) = some kb2 ∧
            kb2.key = kb.key ∧ kb2.modifiers = kb.modifiers ∧
            kb2.command = kb.command ∧ kb2.mode = kb.mode := by
  have hcombo : keyCombo ⟨(parseKeyWithModifiers k).1, (parseKeyWithModifiers k).2, c,
      flagMode f, none, mkBindLine f k c⟩ = k :=
    keyCombo_parseKeyWithModifiers k c (mkBindLine f k c) (flagMode f) none
  have hwf : flagWellFormed (canonFlagForm (flagMode f)) := canonFlagForm_wf _
  have hparse2 := parseBindLine_mkBindLine (canonFlagForm (flagMode f)) k c
    hk hq hkn hkT hwf hch hc hcl
  rw [flagMode_canon (flagMode f)] at hparse2
  refine ⟨⟨(parseKeyWithModifiers k).1, (parseKeyWithModifiers k).2, c, flagMode f, none,
      mkBindLine f k c⟩,
    parseBindLine_mkBindLine f k c hk hq hkn hkT hf hch hc hcl,
    ⟨(parseKeyWithModifiers k).1, (parseKeyWithModifiers k).2, c, flagMode f, none,
      mkBindLine (canonFlagForm (flagMode f)) k c⟩, ?_, rfl, rfl, rfl, rfl⟩
  show parseBindLine (formatBinding (keyCombo ⟨(parseKeyWithModifiers k).1,
    (parseKeyWithModifiers k).2, c, flagMode f, none, mkBindLine f k c⟩) c none (flagMode f)) = _
  rw [hcombo]
  have hfmt : formatBinding k c none (flagMode f) = mkBindLine (canonFlagForm (flagMode f)) k c :=
    bindLineOf_eq_mkBindLine (flagMode f) k c
  rw [hfmt]
  exact hparse2

/-- C9 witness: the root-mode line `bind -n M-h select-pane -L` round
trips. -/
theorem c9_parse_format_round_trip_witness :
    ∃ kb : Keybinding,
      parseBindLine (mkBindLine FlagForm.fRoot ("M-h".toList) ("select-pane -L".toList))
          = some kb ∧
        ∃ kb2 : Keybinding,
          parseBindLine (formatBinding (keyCombo kb) kb.command none kb.mode) = some kb2 ∧
            kb2.key = kb.key ∧ kb2.modifiers = kb.modifiers ∧
            kb2.command = kb.command ∧ kb2.mode = kb.mode :=
  c9_parse_format_round_trip FlagForm.fRoot ("M-h".toList) ("select-pane -L".toList)
    (by decide) (by decide) (by decide) (by decide) (by decide) (by decide) (by decide)
    (by decide)

/-- C5 witness: adding `M-h` twice to an initially empty config — the
first call succeeds, the second returns failure with the content of the
first call unchanged. -/
theorem c5_duplicate_add_rejected_witness :
    (addKeybinding [] ("M-h".toList) ("split-window".toList) none BindingMode.pfx).1 = true ∧
      addKeybinding
          (addKeybinding [] ("M-h".toList) ("split-window".toList) none BindingMode.pfx).2
          ("M-h".toList) ("select-pane -L".toList) none BindingMode.pfx
        = (false,
            (addKeybinding [] ("M-h".toList) ("split-window".toList) none
              BindingMode.pfx).2) :=
  ⟨by decide,
    c5_duplicate_add_rejected [] ("M-h".toList) ("split-window".toList)
      ("select-pane -L".toList) none none BindingMode.pfx (by decide)⟩

end Moobler
namespace Moobler

theorem dropWhile_length_le (p : Char → Bool) :
    ∀ l : List Char, (l.dropWhile p).length ≤ l.length := by
  intro l
  induction l with
  | nil => simp
  | cons a as ih =>
    rw [List.dropWhile_cons]
    by_cases h : p a = true
    · simp only [h, if_true]
      exact Nat.le_trans ih (Nat.le_succ _)
    · simp [h]

theorem dropWhile_head_false (p : Char → Bool) :
    ∀ (l : List Char) (c : Char) (rest : List Char),
      l.dropWhile p = c :: rest → p c = false := by
  intro l
  induction l with
  | nil => intro c rest h; simp at h
  | cons a as ih =>
    intro c rest h
    rw [List.dropWhile_cons] at h
    by_cases ha : p a = true
    · rw [if_pos ha] at h
      exact ih c rest h
    · rw [if_neg ha] at h
      cases h
      simpa using ha

theorem afterNewlines_no_nl (p : List Char → Bool) :
    ∀ cs : List Char, (∀ x ∈ cs, ¬(x = '\n')) → afterNewlines p cs = false := by
  intro cs
  induction cs with
  | nil => intro _; rfl
  | cons c rest ih =>
    intro h
    rw [afterNewlines]
    have hc : ¬(c = '\n') := h c (List.mem_cons_self c rest)
    simp [hc, ih (fun x hx => h x (List.mem_cons_of_mem c hx))]

theorem afterNewlines_line_cons (p : List Char → Bool) :
    ∀ (tw : List Char) (rest : List Char), (∀ x ∈ tw, ¬(x = '\n')) →
      afterNewlines p (tw ++ '\n' :: rest) = (p rest || afterNewlines p rest) := by
  intro tw
  induction tw with
  | nil => intro rest _; rw [List.nil_append, afterNewlines]; simp
  | cons a as ih =>
    intro rest h
    rw [List.cons_append, afterNewlines]
    have ha : ¬(a = '\n') := h a (List.mem_cons_self a as)
    simp [ha, ih rest (fun x hx => h x (List.mem_cons_of_mem a hx))]

theorem subnGo_count_zero_iff (mode : BindingMode) (key : List Char) :
    ∀ (fuel : Nat) (cs : List Char), cs.length < fuel →
      ((subnGo mode key fuel cs).2 = 0 ↔
        searchFromLineStarts (fun s => (matchLineSpan mode key s).isSome) cs = false) := by
  intro fuel
  induction fuel with
  | zero => intro cs h; exact absurd h (Nat.not_lt_zero _)
  | succ fuel ih =>
    intro cs hlen
    cases hm : matchLineSpan mode key cs with
    | some rest =>
      have hsearch : searchFromLineStarts
          (fun s => (matchLineSpan mode key s).isSome) cs = true := by
        rw [searchFromLineStarts]
        simp [hm]
      constructor
      · intro h
        rw [subnGo] at h
        rw [hm] at h
        cases rest with
        | nil => simp at h
        | cons c rest2 => simp at h
      · intro h
        rw [hsearch] at h
        simp at h
    | none =>
      cases hdrop : cs.dropWhile (fun c => !(c = '\n')) with
      | nil =>
        have hnl : ∀ x ∈ cs, ¬(x = '\n') := by
          intro x hx
          have := (List.dropWhile_eq_nil_iff.mp hdrop) x hx
          simpa using this
        have hL : (subnGo mode key (fuel + 1) cs).2 = 0 := by
          rw [subnGo, hm, hdrop]
        have hR : searchFromLineStarts
            (fun s => (matchLineSpan mode key s).isSome) cs = false := by
          rw [searchFromLineStarts, afterNewlines_no_nl _ cs hnl]
          simp [hm]
        rw [hL, hR]
        simp
      | cons c rest2 =>
        have hc : c = '\n' := by
          have := dropWhile_head_false _ cs c rest2 hdrop
          simpa using this
        subst hc
        have hcs : cs.takeWhile (fun x => !(x = '\n')) ++ '\n' :: rest2 = cs := by
          rw [← hdrop]
          exact List.takeWhile_append_dropWhile _ _
        have htw : ∀ x ∈ cs.takeWhile (fun x => !(x = '\n')), ¬(x = '\n') := by
          intro x hx
          simpa using List.mem_takeWhile_imp hx
        have hlen2 : rest2.length < fuel := by
          have h1 : cs.length = (cs.takeWhile (fun x => !(x = '\n'))).length
              + rest2.length + 1 := by
            conv_lhs => rw [← hcs]
            simp [List.length_append]
            omega
          omega
        have hL : (subnGo mode key (fuel + 1) cs).2 = (subnGo mode key fuel rest2).2 := by
          rw [subnGo, hm, hdrop]
        have hR : searchFromLineStarts
            (fun s => (matchLineSpan mode key s).isSome) cs
            = searchFromLineStarts (fun s => (matchLineSpan mode key s).isSome) rest2 := by
          conv_lhs => rw [← hcs]
          rw [searchFromLineStarts, afterNewlines_line_cons _ _ rest2 htw]
          have hfront : (matchLineSpan mode key
              (cs.takeWhile (fun x => !(x = '\n')) ++ '\n' :: rest2)).isSome = false := by
            rw [hcs, hm]
            rfl
          rw [hfront]
          rw [searchFromLineStarts]
          simp
        rw [hL, hR]
        exact ih rest2 hlen2

end Moobler
namespace Moobler

theorem lit_imp_stripPfx (tok : List Char) (k : List Char → Bool) :
    ∀ cs : List Char, lit tok k cs = true → ∃ r, stripPfx tok cs = some r ∧ k r = true := by
  induction tok with
  | nil => intro cs h; exact ⟨cs, rfl, h⟩
  | cons p ps ih =>
    intro cs h
    cases cs with
    | nil => simp [lit] at h
    | cons c cs2 =>
      rw [lit] at h
      simp only [Bool.and_eq_true, decide_eq_true_eq] at h
      obtain ⟨hcp, h2⟩ := h
      obtain ⟨r, hs, hk⟩ := ih cs2 h2
      exact ⟨r, by rw [stripPfx, if_pos hcp]; exact hs, hk⟩

theorem wsStar_exists (k : List Char → Bool) :
    ∀ cs : List Char, wsStar k cs = true →
      ∃ j, j ≤ (cs.takeWhile wsChar).length ∧ k (cs.drop j) = true := by
  intro cs
  induction cs with
  | nil => intro h; exact ⟨0, Nat.le_refl _, by simpa [wsStar] using h⟩
  | cons c cs2 ih =>
    intro h
    rw [wsStar] at h
    simp only [Bool.or_eq_true, Bool.and_eq_true] at h
    rcases h with h | ⟨hw, h2⟩
    · exact ⟨0, Nat.zero_le _, h⟩
    · obtain ⟨j, hj, hk⟩ := ih h2
      refine ⟨j + 1, ?_, by simpa using hk⟩
      rw [List.takeWhile_cons, if_pos hw]
      simpa using hj

theorem wsPlus_exists (k : List Char → Bool) :
    ∀ cs : List Char, wsPlus k cs = true →
      ∃ j, 1 ≤ j ∧ j ≤ (cs.takeWhile wsChar).length ∧ k (cs.drop j) = true := by
  intro cs h
  cases cs with
  | nil => simp [wsPlus] at h
  | cons c cs2 =>
    rw [wsPlus] at h
    simp only [Bool.and_eq_true] at h
    obtain ⟨hw, h2⟩ := h
    obtain ⟨j, hj, hk⟩ := wsStar_exists k cs2 h2
    refine ⟨j + 1, Nat.le_add_left 1 j, ?_, by simpa using hk⟩
    rw [List.takeWhile_cons, if_pos hw]
    simpa using hj

theorem wsTry_isSome (kO : List Char → Option (List Char)) (cs : List Char) :
    ∀ (n j : Nat), 1 ≤ j → j ≤ n → (kO (cs.drop j)).isSome = true →
      (wsTry kO cs n).isSome = true := by
  intro n
  induction n with
  | zero => intro j h1 h2 _; omega
  | succ n ih =>
    intro j h1 h2 h3
    rw [wsTry]
    cases hk : kO (cs.drop (n + 1)) with
    | some r => rfl
    | none =>
      rcases Nat.lt_or_ge j (n + 1) with hlt | hge
      · exact ih j h1 (by omega) h3
      · have : j = n + 1 := by omega
        rw [this, hk] at h3
        simp at h3

theorem wsPlusO_isSome (kB : List Char → Bool) (kO : List Char → Option (List Char))
    (hcorr : ∀ s, kB s = true → (kO s).isSome = true) :
    ∀ cs : List Char, wsPlus kB cs = true → (wsPlusO kO cs).isSome = true := by
  intro cs h
  obtain ⟨j, h1, h2, hk⟩ := wsPlus_exists kB cs h
  exact wsTry_isSome kO cs _ j h1 h2 (hcorr _ hk)

theorem litO_isSome (tok : List Char) (kB : List Char → Bool)
    (kO : List Char → Option (List Char))
    (hcorr : ∀ s, kB s = true → (kO s).isSome = true) :
    ∀ cs : List Char, lit tok kB cs = true → (litO tok kO cs).isSome = true := by
  intro cs h
  obtain ⟨r, hs, hk⟩ := lit_imp_stripPfx tok kB cs h
  rw [litO, hs]
  exact hcorr r hk

theorem keyTail_isSome (key : List Char) :
    ∀ cs : List Char, keyTail key cs = true → (litO key finalWs cs).isSome = true := by
  intro cs h
  refine litO_isSome key (wsPlus topPat) finalWs ?_ cs h
  intro s hs
  cases s with
  | nil => simp [wsPlus] at hs
  | cons c s2 =>
    rw [wsPlus] at hs
    simp only [Bool.and_eq_true] at hs
    rw [finalWs]
    rw [if_pos hs.1]
    rfl

theorem modeTail_isSome (mode : BindingMode) (key : List Char) :
    ∀ cs : List Char, modeFlagPat mode key cs = true →
      (modeTail mode key cs).isSome = true := by
  cases mode with
  | pfx => exact fun cs h => wsPlusO_isSome _ _ (keyTail_isSome key) cs h
  | root =>
    exact fun cs h => wsPlusO_isSome _ _
      (litO_isSome dashNTok _ _ (fun s hs => wsPlusO_isSome _ _ (keyTail_isSome key) s hs))
      cs h
  | copyMode =>
    exact fun cs h => wsPlusO_isSome _ _
      (litO_isSome dashTTok _ _ (fun s hs => wsPlusO_isSome _ _
        (litO_isSome copyModeTok _ _ (fun s2 hs2 => wsPlusO_isSome _ _
          (keyTail_isSome key) s2 hs2)) s hs))
      cs h
  | copyModeVi =>
    exact fun cs h => wsPlusO_isSome _ _
      (litO_isSome dashTTok _ _ (fun s hs => wsPlusO_isSome _ _
        (litO_isSome copyModeViTok _ _ (fun s2 hs2 => wsPlusO_isSome _ _
          (keyTail_isSome key) s2 hs2)) s hs))
      cs h

theorem coreEndO_isSome (mode : BindingMode) (key : List Char) :
    ∀ cs : List Char, bindCorePat mode key cs = true →
      (coreEndO mode key cs).isSome = true := by
  intro cs h
  rw [bindCorePat] at h
  obtain ⟨r, hs, hk⟩ := lit_imp_stripPfx bindTok _ cs h
  simp only [Bool.or_eq_true] at hk
  rw [coreEndO, litO, hs]
  show (match litO dashKeyTok (modeTail mode key) r with
    | some e => some e
    | none => modeTail mode key r).isSome = true
  cases hd : litO dashKeyTok (modeTail mode key) r with
  | some e => rfl
  | none =>
    rcases hk with hk | hk
    · have := litO_isSome dashKeyTok (modeFlagPat mode key) (modeTail mode key)
        (modeTail_isSome mode key) r hk
      rw [hd] at this
      simp at this
    · exact modeTail_isSome mode key r hk

theorem tryOffsetsDown_isSome (core : List Char → Option (List Char)) (cs : List Char) :
    ∀ (n j : Nat), j ≤ n → (core (cs.drop j)).isSome = true →
      (tryOffsetsDown core cs n).isSome = true := by
  intro n
  induction n with
  | zero =>
    intro j h1 h2
    have : j = 0 := by omega
    rw [this] at h2
    rw [tryOffsetsDown]
    simpa using h2
  | succ n ih =>
    intro j h1 h2
    rw [tryOffsetsDown]
    cases hk : core (cs.drop (n + 1)) with
    | some r => rfl
    | none =>
      rcases Nat.lt_or_ge j (n + 1) with hlt | hge
      · exact ih j (by omega) h2
      · have : j = n + 1 := by omega
        rw [this, hk] at h2
        simp at h2

theorem existsLine_imp_matchLineSpan (mode : BindingMode) (key : List Char)
    (l : List Char) (hnl : ∀ x ∈ l, ¬(x = '\n'))
    (h : existsLinePat mode key l = true) :
    (matchLineSpan mode key l).isSome = true := by
  obtain ⟨j, hj, hk⟩ := wsStar_exists _ l h
  have hcore : (coreEndO mode key (l.drop j)).isSome = true :=
    coreEndO_isSome mode key _ hk
  have hline : (l.takeWhile (fun c => !(c = '\n'))).length = l.length := by
    rw [List.takeWhile_eq_self_iff.mpr (by intro x hx; simpa using hnl x hx)]
  have hjle : j ≤ (l.takeWhile (fun c => !(c = '\n'))).length := by
    rw [hline]
    calc j ≤ (l.takeWhile wsChar).length := hj
      _ ≤ l.length := by
        conv_rhs => rw [← List.takeWhile_append_dropWhile wsChar l]
        rw [List.length_append]
        omega
  have : (dotStarCore (coreEndO mode key) l).isSome = true :=
    tryOffsetsDown_isSome _ l _ j hjle hcore
  rw [matchLineSpan]
  cases hd : dotStarCore (coreEndO mode key) l with
  | some r => rfl
  | none => rw [hd] at this; simp at this

/-! ### C2: which spans remove_keybinding deletes -/

/-- C2 counterexample: the comment line matches no duplicate-check regex for key
x in prefix mode, yet remove_keybinding deletes it; moreover deletion is not
line-by-line: on the two-line content neither line alone matches the removal
pattern, yet the whole content is removed because the regex's inner \s+ crosses
the newline. -/
theorem c2_remove_regex_counterexample :
    existsLinePat BindingMode.pfx ['x'] ("# bind x foo".toList) = false ∧
    removeKeybinding ("# bind x foo".toList) ['x'] BindingMode.pfx = some [] ∧
    existsLinePat BindingMode.pfx ['x'] ("bind x".toList) = false ∧
    existsLinePat BindingMode.pfx ['x'] ("foo".toList) = false ∧
    removeKeybinding (("bind x".toList) ++ '\n' :: ("foo".toList)) ['x'] BindingMode.pfx
      = some [] :=
  ⟨by decide, by decide, by decide, by decide, by decide⟩

/-- C2 amended: remove_keybinding reports the not-found result (leaving the file
unmodified) exactly when the removal regex matches at no line start of the
content; and the removal pattern strictly exceeds the duplicate-check pattern
extended to the whole line: every newline-free line matched by the anchored
duplicate-check regex is also matched by the removal regex. -/
theorem c2_remove_not_found_iff (content keybind : List Char) (mode : BindingMode) :
    (removeKeybinding content keybind mode = none ↔
      searchFromLineStarts (fun s => (matchLineSpan mode keybind s).isSome) content
        = false) ∧
    (∀ l : List Char, (∀ x ∈ l, ¬(x = '\n')) → existsLinePat mode keybind l = true →
      (matchLineSpan mode keybind l).isSome = true) := by
  constructor
  · rw [removeKeybinding, reSubn]
    constructor
    · intro h
      by_cases hc : (subnGo mode keybind (content.length + 1) content).2 = 0
      · exact (subnGo_count_zero_iff mode keybind _ content (Nat.lt_succ_self _)).mp hc
      · rw [if_neg hc] at h
        simp at h
    · intro h
      have hc := (subnGo_count_zero_iff mode keybind _ content (Nat.lt_succ_self _)).mpr h
      rw [if_pos hc]
  · intro l hnl h
    exact existsLine_imp_matchLineSpan mode keybind l hnl h

/-- Witness for the C2 amended theorem at concrete inputs. -/
theorem c2_remove_not_found_iff_witness :
    removeKeybinding ("nothing here".toList) ['x'] BindingMode.pfx = none ∧
    (matchLineSpan BindingMode.pfx ['x'] ("bind x y".toList)).isSome = true :=
  ⟨(c2_remove_not_found_iff ("nothing here".toList) ['x'] BindingMode.pfx).1.mpr
      (by decide),
    (c2_remove_not_found_iff [] ['x'] BindingMode.pfx).2 ("bind x y".toList)
      (by decide) (by decide)⟩

end Moobler
